import Mathlib

/-!
Verification of `update_sermons.py`, an incremental sermon-transcript archiver.

The Python source is shallowly embedded: strings are lists of characters,
the file system and the network are explicit environment records, and every
side-effecting step is modelled by the value it produces.  Functions that
scan text are written with an explicit fuel argument (initialised to the
length of the input) so that they are structurally recursive and evaluate
on concrete inputs.
-/

namespace UpdateSermons

/-- Python strings are modelled as lists of characters. -/
abbrev Str := List Char

/-! ## Identity Store: `get_existing_video_ids` (update_sermons.py lines 43-49)

The Python scans the file text with the regular expression
`youtube\.com\/watch\?v=([a-zA-Z0-9_-]{11})` via `re.findall`, which walks
the text left to right, collecting non-overlapping matches, and returns the
captured eleven-character groups. -/

/-- The character class `[a-zA-Z0-9_-]` of the video-id capture group. -/
def isVidChar (c : Char) : Bool :=
  c.isAlpha || c.isDigit || c == '_' || c == '-'

/-- The literal part of the scan pattern, `youtube.com/watch?v=`. -/
def watchLit : Str := "youtube.com/watch?v=".data

/-- One attempt of the pattern at the head of `s`: the literal followed by
eleven characters of the id class.  Returns the captured id and the text
after the match. -/
def matchAt (s : Str) : Option (Str × Str) :=
  if watchLit.isPrefixOf s then
    if ((s.drop watchLit.length).take 11).length = 11 ∧
        ((s.drop watchLit.length).take 11).all isVidChar then
      some ((s.drop watchLit.length).take 11, (s.drop watchLit.length).drop 11)
    else none
  else none

/-- Fuelled left-to-right non-overlapping scan, as `re.findall` performs it:
a successful match is consumed whole, a failed attempt advances one
character. -/
def findIdsGo : Nat → Str → List Str
  | 0, _ => []
  | fuel + 1, s =>
    match s with
    | [] => []
    | c :: t =>
      match matchAt (c :: t) with
      | some (i, rest) => i :: findIdsGo fuel rest
      | none => findIdsGo fuel t

/-- All ids captured by `re.findall` over the whole text. -/
def findIds (s : Str) : List Str := findIdsGo s.length s

/-- Model of `get_existing_video_ids`: the file system is abstracted by the optional
contents of the file at the given path (`none` = file does not exist). -/
def get_existing_video_ids (file : Option Str) : Finset Str :=
  match file with
  | none => ∅
  | some content => (findIds content).toFinset

/-- The text immediately after an occurrence of the literal, when the
eleven id-class characters are there.  This is the reading of the spec's
"11-character identifier immediately following `watch?v=`". -/
def FollowsOccurrence (content x : Str) : Prop :=
  ∃ A B, content = A ++ watchLit ++ x ++ B ∧ x.length = 11 ∧ x.all isVidChar = true

/-- Text free of the character `y`. -/
def noY (s : Str) : Bool := s.all (fun c => c != 'y')

/-! ## Transcript decoding: `xml_to_text` (update_sermons.py lines 75-95) -/

/-- Fuelled body of Python `str.replace` (left-to-right, non-overlapping).
The fuel, initialised to the input's length, is never exhausted for the
non-empty patterns the source uses. -/
def pyReplaceGo (old new : Str) : Nat → Str → Str
  | 0, s => s
  | fuel + 1, s =>
    match s with
    | [] => []
    | c :: t =>
      if old ≠ [] ∧ old.isPrefixOf (c :: t) then
        new ++ pyReplaceGo old new fuel ((c :: t).drop old.length)
      else c :: pyReplaceGo old new fuel t

/-- Python `s.replace(old, new)`. -/
def pyReplace (s old new : Str) : Str := pyReplaceGo old new s.length s

/-- The entity decoding chain of `xml_to_text`:
`.replace('&nbsp;', ' ').replace('&#39;', "'").replace('&quot;', '"').replace('&amp;', '&')`. -/
def decodeEntities (s : Str) : Str :=
  pyReplace (pyReplace (pyReplace (pyReplace s "&nbsp;".data [' '])
    "&#39;".data [Char.ofNat 39]) "&quot;".data [Char.ofNat 34]) "&amp;".data ['&']

/-- Fuelled body of Python `str.split()` with no separator: skip
whitespace, take the next maximal non-whitespace run as a word. -/
def pyWordsGo : Nat → Str → List Str
  | 0, _ => []
  | fuel + 1, s =>
    match s with
    | [] => []
    | c :: t =>
      if c.isWhitespace then pyWordsGo fuel t
      else (c :: t.takeWhile (fun x => !x.isWhitespace)) ::
        pyWordsGo fuel (t.dropWhile (fun x => !x.isWhitespace))

/-- Python `s.split()`: whitespace-separated words, empties dropped. -/
def pySplit (s : Str) : List Str := pyWordsGo s.length s

/-- Python `" ".join(ws)`. -/
def joinWords : List Str → Str
  | [] => []
  | [w] => w
  | w :: ws => w ++ ' ' :: joinWords ws

/-- Python join of split, the whitespace collapse in `xml_to_text`. -/
def collapseWs (s : Str) : Str := joinWords (pySplit s)

/-- One parsed element of the caption XML: its tag and its contained text
(`child.text`, which is `None` when absent). -/
structure XmlChild where
  tag : Str
  text : Option Str
deriving DecidableEq

/-- The body of one cue as `xml_to_text` cleans it: `child.text or ""`,
entity decoding, then whitespace collapse. -/
def cleanCue (t : Option Str) : Str := collapseWs (decodeEntities (t.getD []))

/-- Model of `xml_to_text`: the XML parse is abstracted by its result (`none` when
`ET.fromstring` raises, in which case the function returns `None`).  Cues
are the children tagged `text`; cleaned cues that are non-empty are joined
with single spaces. -/
def xml_to_text : Option (List XmlChild) → Option Str
  | none => none
  | some children =>
      some (joinWords (((children.filter (fun c => c.tag == "text".data)).map
        (fun c => cleanCue c.text)).filter (fun w => !w.isEmpty)))

/-! ### The decoded text has no doubled spaces -/

/-- Two consecutive space characters somewhere in the text. -/
def hasDoubledSpace : Str → Bool
  | a :: b :: t => (a == ' ' && b == ' ') || hasDoubledSpace (b :: t)
  | _ => false

/-- A text that neither contains doubled spaces nor starts or ends with a
space. -/
structure SpaceClean (s : Str) : Prop where
  noDouble : hasDoubledSpace s = false
  headOk : s.head? ≠ some ' '
  lastOk : s.getLast? ≠ some ' '

/-! ## Transcript Fetcher: `fetch_captions_with_client` and
`get_transcript_text` (update_sermons.py lines 97-174) -/

/-- A caption track as exposed by the metadata provider, identified by its
language code (`yt.captions` maps language codes to tracks). -/
structure Caption where
  code : Str
deriving DecidableEq

/-- Membership test of the caption mapping. -/
def hasCode (caps : List Caption) (code : Str) : Bool :=
  (caps.find? (fun c => c.code == code)).isSome

/-- Lookup in the caption mapping by language code. -/
def lookupCode (caps : List Caption) (code : Str) : Option Caption :=
  caps.find? (fun c => c.code == code)

/-- The caption-track selection of `fetch_captions_with_client` (lines
115-127): the priority chain `en`, `a.en`, `en-US`, then the first track
whose code starts with `en`. -/
def selectCaption (caps : List Caption) : Option Caption :=
  let pref :=
    if hasCode caps "en".data then lookupCode caps "en".data
    else if hasCode caps "a.en".data then lookupCode caps "a.en".data
    else if hasCode caps "en-US".data then lookupCode caps "en-US".data
    else none
  match pref with
  | some c => some c
  | none => caps.find? (fun c => "en".data.isPrefixOf c.code)

/-- Typed failure kinds raised by `get_transcript_text` (each is a
distinct `raise Exception(...)` site in lines 153-171). -/
inductive FetchErr where
  /-- Raised as "No English captions found after trying WEB and ANDROID clients." -/
  | noCaptions
  /-- Raised as "Transcript downloaded but parsed empty." -/
  | transcriptEmpty
  /-- Raised as "Rate Limit (429) encountered during caption download." -/
  | rateLimited
  /-- Raised as the HTTP-error message carrying the offending status. -/
  | httpError (status : Nat)
deriving DecidableEq

/-- The upstream world seen by one `get_transcript_text` call: the
metadata resolution per client identity (`.error` models a raised
exception inside `fetch_captions_with_client`, `.ok` the caption list of
the resolved `yt.captions`), and the side-channel payload download per
caption track (HTTP status and parse-abstracted body). -/
structure FetchEnv where
  resolve : Str → Except Unit (List Caption)
  download : Caption → Nat × Option (List XmlChild)

/-- Model of `fetch_captions_with_client`: resolve the
metadata with the given client, then select a track; exceptions
propagate. -/
def fetch_captions_with_client (env : FetchEnv) (client : Str) :
    Except Unit (Option Caption) :=
  (env.resolve client).map selectCaption

/-- The caption track a client attempt contributes in
`get_transcript_text`: a raised exception is caught (only a warning is
printed) and leaves the track as `None`. -/
def clientTrack (env : FetchEnv) (client : Str) : Option Caption :=
  match fetch_captions_with_client env client with
  | .ok c => c
  | .error _ => none

/-- Step 3 of `get_transcript_text` (lines 156-174): download the caption
payload through the side channel and decode it. -/
def downloadStep (env : FetchEnv) (track : Caption) : Except FetchErr Str :=
  if (env.download track).1 = 200 then
    match xml_to_text (env.download track).2 with
    | none => .error .transcriptEmpty
    | some t => if t = [] then .error .transcriptEmpty else .ok t
  else if (env.download track).1 = 429 then .error .rateLimited
  else .error (.httpError (env.download track).1)

/-- Model of `get_transcript_text`: result plus the list of client
identities attempted, in order (the source prints one
"Attempting metadata fetch" line per attempt). -/
def get_transcript_text (env : FetchEnv) : Except FetchErr Str × List Str :=
  match clientTrack env "WEB".data with
  | some track => (downloadStep env track, ["WEB".data])
  | none =>
    match clientTrack env "ANDROID".data with
    | some track => (downloadStep env track, ["WEB".data, "ANDROID".data])
    | none => (.error .noCaptions, ["WEB".data, "ANDROID".data])

/-! ## Entry Formatter: `format_sermon_entry` (update_sermons.py lines 51-73) -/

/-- Python substring membership, `pat in s`. -/
def containsSub (pat : Str) : Str → Bool
  | [] => pat.isEmpty
  | c :: t => pat.isPrefixOf (c :: t) || containsSub pat t

/-- The speaker inference of lines 52-56: first case-sensitive substring
match wins, otherwise the placeholder. -/
def inferSpeaker (title : Str) : Str :=
  if containsSub "Evans".data title then "Brother Daniel Evans".data
  else if containsSub "Brisson".data title then "Brother Steeve Brisson".data
  else if containsSub "Guerra".data title then "Brother Aaron Guerra".data
  else if containsSub "Branham".data title then "Brother William Branham".data
  else "Unknown Speaker".data

/-- The line of 80 hash marks delimiting the header. -/
def hashLine : Str := List.replicate 80 '#'

/-- The line of 40 equals signs boxing the details. -/
def eqLine : Str := List.replicate 40 '='

/-- The header text up to (excluding) the `youtube.com/watch?v=` part of
the embedded URL line. -/
def entryHead (title date_str church_name : Str) : Str :=
  ['\n'] ++ hashLine ++ ['\n'] ++
  "START OF FILE: ".data ++ date_str ++ " - ".data ++ title ++ " - ".data ++
    inferSpeaker title ++ " - Clean.txt\n".data ++
  hashLine ++ "\n\nSERMON DETAILS\n".data ++ eqLine ++
  "\nDate:    ".data ++ date_str ++
  "\nTitle:   ".data ++ title ++
  "\nSpeaker: ".data ++ inferSpeaker title ++
  "\nChurch:  ".data ++ church_name ++
  "\nURL:     https://www.".data

/-- The text of the entry after the video id: the closing details line,
a blank line, the transcript, and the trailing newline of line 73. -/
def entryTail (transcript_text : Str) : Str :=
  ['\n'] ++ eqLine ++ "\n\n".data ++ transcript_text ++ ['\n']

/-- Model of `format_sermon_entry`: the header f-string (with the embedded
canonical watch URL) followed by the transcript and a newline. -/
def format_sermon_entry (video_id title date_str transcript_text church_name : Str) : Str :=
  entryHead title date_str church_name ++ watchLit ++ video_id ++ entryTail transcript_text

/-! ## Channel Processor: `process_channel` (update_sermons.py lines 176-252) -/

/-- A candidate video descriptor from the listings: its id and its
best-effort title (`"Unknown Title"` substituted upstream when absent). -/
structure Video where
  videoId : Str
  title : Str
deriving DecidableEq

/-- The world seen by one `process_channel` call: the destination file's
contents, the two listing-tab results (`.error` models a raised,
swallowed exception), the per-video transcript fetch, and the fallback
date of the run. -/
structure ChanEnv where
  file : Option Str
  streams : Except Unit (List Video)
  uploads : Except Unit (List Video)
  fetch : Str → Except FetchErr Str
  today : Str

/-- Outcome of one `process_channel` call: destination file contents
afterwards, whether the append-write happened, and the entries appended
in written order. -/
structure ChanResult where
  file : Option Str
  wrote : Bool
  appended : List Str
deriving DecidableEq

/-- The merged candidate list: streams then uploads, a failed tab contributing
nothing (lines 196-209). -/
def listedVideos (env : ChanEnv) : List Video :=
  (match env.streams with | .ok vs => vs | .error _ => []) ++
  (match env.uploads with | .ok vs => vs | .error _ => [])

/-- Keys in order of first appearance (Python dict insertion order). -/
def firstKeys : List Video → List Str
  | [] => []
  | v :: t => v.videoId :: (firstKeys t).filter (fun k => k != v.videoId)

/-- The dict-comprehension deduplication of line 212: for each
id in first-appearance order, the last descriptor carrying it. -/
def dedupByKey (vs : List Video) : List Video :=
  (firstKeys vs).filterMap (fun k => (vs.filter (fun v => v.videoId == k)).getLast?)

/-- The per-video loop of lines 223-243: skip ids already archived, fetch
the transcript, buffer a formatted entry on success, skip (and log) on
failure. -/
def buildEntries (existing : Finset Str) (fetch : Str → Except FetchErr Str)
    (today church_name : Str) (videos : List Video) : List Str :=
  videos.filterMap (fun v =>
    if v.videoId ∈ existing then none
    else match fetch v.videoId with
      | .ok text => some (format_sermon_entry v.videoId v.title today text church_name)
      | .error _ => none)

/-- Model of `process_channel`: snapshot the archive index, list and deduplicate
candidates, buffer entries, and append them in reverse buffer order in
one write pass only when the buffer is non-empty (lines 245-252). -/
def process_channel (env : ChanEnv) (church_name : Str) : ChanResult :=
  let existing := get_existing_video_ids env.file
  let uniq := dedupByKey (listedVideos env)
  if uniq.isEmpty then ⟨env.file, false, []⟩
  else
    let entries := buildEntries existing env.fetch env.today church_name uniq
    if entries.isEmpty then ⟨env.file, false, []⟩
    else ⟨some ((env.file.getD []) ++ (entries.reverse).flatten), true, entries.reverse⟩

/-! ## Run Controller: `load_config` and `main` (update_sermons.py lines
34-41 and 254-263) -/

/-- One channel's configuration object. -/
structure RunChannelCfg where
  url : Str
  filename : Str

/-- The recognized configuration file names, in probe order. -/
def CONFIG_FILES : List Str := ["channels.json".data, "config.json".data]

/-- The world seen by `main`: which files exist, what `json.load` yields
for each, and the per-channel processing environment. -/
structure RunEnv where
  fileExists : Str → Bool
  parse : Str → List (Str × RunChannelCfg)
  world : Str → RunChannelCfg → ChanEnv

/-- Model of `load_config`: the first existing recognized file is loaded; when
none exists an error is printed and the empty mapping returned. -/
def load_config (env : RunEnv) : List (Str × RunChannelCfg) :=
  match CONFIG_FILES.find? (fun f => env.fileExists f) with
  | some f => env.parse f
  | none => []

/-- Model of `main`: load the configuration, return at once when it is empty,
otherwise process every configured channel; the result pairs each channel
name with its processing outcome. -/
def main (env : RunEnv) : List (Str × ChanResult) :=
  let channels := load_config env
  if channels.isEmpty then []
  else channels.map (fun nc => (nc.1, process_channel (env.world nc.1 nc.2) nc.1))

/-! ## Concrete inputs used to exercise the claims -/

/-- File contents with two overlapping occurrences of the URL literal:
the scan of the first match swallows the prefix of the second. -/
def overlapContent : Str :=
  "youtube.com/watch?v=AAAAyoutube.com/watch?v=BBBBBBBBBBB".data

/-- A synthetic destination file holding three archived ids interleaved
with unrelated text. -/
def synthFile : Str :=
  ("junk text\nURL:     https://www.youtube.com/watch?v=aaaaaaaaaaa\nmore junk\n" ++
   "youtube.com/watch?v=bbbbbbbbbb_ and trailing\n" ++
   "see https://www.youtube.com/watch?v=ccccccccc-C end").data

/-- A channel world whose single candidate is already archived. -/
def c1Env : ChanEnv where
  file := some "URL:     https://www.youtube.com/watch?v=abcdefghijk\n".data
  streams := .ok [⟨"abcdefghijk".data, "Old Sermon".data⟩]
  uploads := .ok []
  fetch := fun _ => .error .noCaptions
  today := "2024-01-01".data

/-- A channel world with one new candidate whose fetch fails. -/
def c8Env : ChanEnv where
  file := none
  streams := .ok [⟨"abcdefghijk".data, "New Sermon".data⟩]
  uploads := .error ()
  fetch := fun _ => .error .rateLimited
  today := "2024-01-02".data

/-- A channel world with three new candidates, the second of which fails
to fetch. -/
def c6Env : ChanEnv where
  file := none
  streams := .ok [⟨"aaaaaaaaaaa".data, "First - Evans".data⟩,
    ⟨"bbbbbbbbbbb".data, "Second".data⟩,
    ⟨"ccccccccccc".data, "Third - Guerra".data⟩]
  uploads := .ok []
  fetch := fun vid => if vid = "bbbbbbbbbbb".data then .error .rateLimited
    else .ok "transcript words".data
  today := "2024-01-03".data

/-- An upstream world where the WEB metadata resolution raises but the
ANDROID one yields an English caption track. -/
def c2Env : FetchEnv where
  resolve := fun client => if client = "ANDROID".data then .ok [⟨"en".data⟩] else .error ()
  download := fun _ => (200, some [⟨"text".data, some "hello world".data⟩])

/-- An upstream world where the metadata resolution raises for every
client identity. -/
def c5ThrowEnv : FetchEnv where
  resolve := fun _ => .error ()
  download := fun _ => (200, none)

/-- An upstream world where the metadata resolution succeeds but exposes
no caption track at all. -/
def c5NoTrackEnv : FetchEnv where
  resolve := fun _ => .ok []
  download := fun _ => (200, none)

/-- A caption list with an auto-generated English track and a regional
variant, but no exact `en` track. -/
def c7Caps : List Caption := [⟨"a.en".data⟩, ⟨"en-GB".data⟩]

/-- A caption payload exercising all four decoded entities, a cue with
irregular internal whitespace, a non-cue child, an all-whitespace cue and
a text-less cue. -/
def c4Children : List XmlChild :=
  [⟨"text".data, some "  hello   &amp;  world ".data⟩,
   ⟨"other".data, some "ignored".data⟩,
   ⟨"text".data, some "it&#39;s &quot;quoted&quot;&nbsp; here".data⟩,
   ⟨"text".data, some "   ".data⟩,
   ⟨"text".data, none⟩]

/-- The decoded text of `c4Children`:
`hello & world it's "quoted" here`. -/
def c4Expected : Str :=
  "hello & world it".data ++ [Char.ofNat 39] ++ "s ".data ++ [Char.ofNat 34] ++
  "quoted".data ++ [Char.ofNat 34] ++ " here".data

/-- A run world in which no recognized configuration file exists. -/
def c9Env : RunEnv where
  fileExists := fun _ => false
  parse := fun _ => []
  world := fun _ _ =>
    { file := none, streams := .error (), uploads := .error (),
      fetch := fun _ => .error .noCaptions, today := [] }

/-! ## Properties of the embedding -/

/-! ### Basic facts about the scanner -/

theorem watchLit_length : watchLit.length = 20 := by decide

theorem watchLit_cons : watchLit = 'y' :: "outube.com/watch?v=".data := by decide

/-- Unfolding of the boolean prefix test into an append decomposition. -/
theorem isPrefixOf_iff_append {x s : Str} : x.isPrefixOf s = true ↔ ∃ t, s = x ++ t := by
  rw [ List.isPrefixOf_iff_prefix]
  constructor
  · rintro ⟨t, rfl⟩
    exact ⟨t, rfl⟩
  · rintro ⟨t, rfl⟩
    exact ⟨t, rfl⟩

/-- A successful match decomposes its input and certifies the id's shape. -/
theorem matchAt_some {s i rest : Str} (h : matchAt s = some (i, rest)) :
    s = watchLit ++ i ++ rest ∧ i.length = 11 ∧ i.all isVidChar = true := by
  unfold matchAt at h
  split at h
  case isTrue hpre =>
    split at h
    case isTrue hc =>
      simp only [Option.some.injEq, Prod.mk.injEq] at h
      obtain ⟨hi, hrest⟩ := h
      obtain ⟨tail, htail⟩ := isPrefixOf_iff_append.mp hpre
      subst htail
      rw [List.drop_left] at hc hi hrest
      refine ⟨?_, ?_, ?_⟩
      · rw [← hi, ← hrest, List.append_assoc, List.take_append_drop]
      · rw [← hi]; exact hc.1
      · rw [← hi]; exact hc.2
    case isFalse => exact absurd h (by simp)
  case isFalse => exact absurd h (by simp)

/-- A successful match consumes exactly 31 characters. -/
theorem matchAt_some_len {s i rest : Str} (h : matchAt s = some (i, rest)) :
    rest.length + 31 = s.length := by
  obtain ⟨hdec, hlen, -⟩ := matchAt_some h
  subst hdec
  simp only [List.length_append, watchLit_length, hlen]
  omega

theorem findIdsGo_succ_cons (fuel : Nat) (c : Char) (t : Str) :
    findIdsGo (fuel + 1) (c :: t) = match matchAt (c :: t) with
      | some (i, rest) => i :: findIdsGo fuel rest
      | none => findIdsGo fuel t := rfl

/-- Fuel does not matter once it covers the length of the input. -/
theorem findIdsGo_fuel {f g : Nat} : ∀ {s : Str}, s.length ≤ f → s.length ≤ g →
    findIdsGo f s = findIdsGo g s := by
  induction f using Nat.strong_induction_on generalizing g with
  | _ f ih =>
    intro s hf hg
    cases s with
    | nil => cases f <;> cases g <;> rfl
    | cons c t =>
      simp only [List.length_cons] at hf hg
      obtain ⟨f', rfl⟩ : ∃ f', f = f' + 1 := ⟨f - 1, by omega⟩
      obtain ⟨g', rfl⟩ : ∃ g', g = g' + 1 := ⟨g - 1, by omega⟩
      rw [findIdsGo_succ_cons, findIdsGo_succ_cons]
      cases hm : matchAt (c :: t) with
      | some p =>
        have hlen := @matchAt_some_len (c :: t) p.1 p.2 (by simpa using hm)
        simp only [List.length_cons] at hlen
        obtain ⟨pi, pr⟩ := p
        simp only at hlen
        dsimp only
        rw [ih f' (Nat.lt_succ_self f') (g := g') (s := pr) (by omega) (by omega)]
      | none =>
        exact ih f' (Nat.lt_succ_self f') (g := g') (s := t) (by omega) (by omega)

theorem findIds_nil : findIds [] = [] := rfl

/-- Scanner step: a failed attempt advances one character. -/
theorem findIds_cons_none {c : Char} {t : Str} (h : matchAt (c :: t) = none) :
    findIds (c :: t) = findIds t := by
  show findIdsGo (t.length + 1) (c :: t) = findIdsGo t.length t
  rw [findIdsGo_succ_cons, h]

/-- Scanner step: a successful match is collected and consumed whole. -/
theorem findIds_cons_some {s i rest : Str} (h : matchAt s = some (i, rest)) :
    findIds s = i :: findIds rest := by
  match s with
  | [] =>
    have := matchAt_some_len h
    simp at this
  | c :: t =>
    have hlen := matchAt_some_len h
    simp only [List.length_cons] at hlen
    show findIdsGo (t.length + 1) (c :: t) = i :: findIds rest
    rw [findIdsGo_succ_cons, h]
    dsimp only
    rw [findIdsGo_fuel (f := t.length) (g := rest.length) (by omega) (Nat.le_refl _)]
    rfl

/-- Soundness of the scan: every collected id has exactly eleven characters
of the id class and follows an occurrence of the literal in the text. -/
theorem findIdsGo_sound : ∀ (f : Nat) (s x : Str), x ∈ findIdsGo f s →
    FollowsOccurrence s x := by
  intro f
  induction f using Nat.strong_induction_on with
  | _ f ih =>
    intro s x hx
    match f, s with
    | 0, s => simp [findIdsGo] at hx
    | f + 1, [] => simp [findIdsGo] at hx
    | f + 1, c :: t =>
      rw [findIdsGo_succ_cons] at hx
      revert hx
      cases hm : matchAt (c :: t) with
      | some p =>
        obtain ⟨hdec, hlen, hall⟩ := @matchAt_some (c :: t) p.1 p.2 (by simpa using hm)
        intro hx
        rcases List.mem_cons.mp hx with hx | hx
        · exact ⟨[], p.2, by simpa [hx] using hdec, hx ▸ hlen, hx ▸ hall⟩
        · obtain ⟨A, B, hAB, h11, hv⟩ := ih f (Nat.lt_succ_self f) p.2 x hx
          exact ⟨watchLit ++ p.1 ++ A, B, by simp [hdec, hAB, List.append_assoc], h11, hv⟩
      | none =>
        intro hx
        obtain ⟨A, B, hAB, h11, hv⟩ := ih f (Nat.lt_succ_self f) t x hx
        exact ⟨c :: A, B, by simp [hAB], h11, hv⟩

theorem findIds_sound {s x : Str} (hx : x ∈ findIds s) : FollowsOccurrence s x :=
  findIdsGo_sound s.length s x hx

/-- No match can start at a character other than `y`, the head of the
literal. -/
theorem matchAt_cons_ne {c : Char} (t : Str) (h : c ≠ 'y') : matchAt (c :: t) = none := by
  have hpre : watchLit.isPrefixOf (c :: t) = false := by
    rw [watchLit_cons]
    have : ('y' :: "outube.com/watch?v=".data).isPrefixOf (c :: t) =
        ('y' == c && "outube.com/watch?v=".data.isPrefixOf t) := rfl
    rw [this, beq_eq_false_iff_ne.mpr (Ne.symm h), Bool.false_and]
  unfold matchAt
  rw [hpre]
  simp

/-- The scan walks through a `y`-free region without finding anything. -/
theorem findIds_append_noY {A : Str} (hA : noY A = true) (rest : Str) :
    findIds (A ++ rest) = findIds rest := by
  induction A with
  | nil => rfl
  | cons c t ih =>
    simp only [noY, List.all_cons, Bool.and_eq_true] at hA
    have hc : c ≠ 'y' := by simpa using hA.1
    rw [List.cons_append, findIds_cons_none (matchAt_cons_ne _ hc), ih hA.2]

/-- The scan collects a well-formed id placed right after the literal. -/
theorem findIds_watchLit_append {x : Str} (hlen : x.length = 11)
    (hall : x.all isVidChar = true) (rest : Str) :
    findIds (watchLit ++ x ++ rest) = x :: findIds rest := by
  apply findIds_cons_some
  have hpre : watchLit.isPrefixOf (watchLit ++ (x ++ rest)) = true :=
    isPrefixOf_iff_append.mpr ⟨x ++ rest, rfl⟩
  unfold matchAt
  rw [List.append_assoc, hpre]
  simp only [if_true]
  rw [List.drop_left, ← hlen, List.take_left, List.drop_left]
  simp [hlen, hall]

theorem mem_of_getLast?_eq_some {α : Type} : ∀ {l : List α} {a : α},
    l.getLast? = some a → a ∈ l
  | [], _, h => by simp at h
  | [x], a, h => by simp_all
  | x :: y :: t, a, h => by
    rw [List.getLast?_cons_cons] at h
    exact List.mem_cons_of_mem x (mem_of_getLast?_eq_some h)

theorem hasDoubledSpace_eq_false {w : Str} (h : ∀ c ∈ w, c ≠ ' ') :
    hasDoubledSpace w = false := by
  match w with
  | [] => rfl
  | [a] => rfl
  | a :: b :: t =>
    show ((a == ' ' && b == ' ') || hasDoubledSpace (b :: t)) = false
    rw [hasDoubledSpace_eq_false (fun c hc => h c (List.mem_cons_of_mem a hc))]
    simp [h a (by simp)]

/-- A word with no whitespace at all is space-clean. -/
theorem word_spaceClean {w : Str} (h : ∀ c ∈ w, c.isWhitespace = false) :
    SpaceClean w := by
  have hns : ∀ c ∈ w, c ≠ ' ' := by
    intro c hc he
    have := h c hc
    rw [he] at this
    simp at this
  refine ⟨hasDoubledSpace_eq_false hns, ?_, ?_⟩
  · cases w with
    | nil => simp
    | cons a t =>
      simp only [List.head?_cons, ne_eq, Option.some.injEq]
      exact hns a (by simp)
  · intro hlast
    exact hns ' ' (mem_of_getLast?_eq_some hlast) rfl

theorem hasDoubledSpace_append {x y : Str} (hx : hasDoubledSpace x = false)
    (hy : hasDoubledSpace y = false)
    (hxy : ¬(x.getLast? = some ' ' ∧ y.head? = some ' ')) :
    hasDoubledSpace (x ++ y) = false := by
  match x with
  | [] => simpa using hy
  | [a] =>
    cases y with
    | nil => simpa using hx
    | cons b t =>
      show ((a == ' ' && b == ' ') || hasDoubledSpace (b :: t)) = false
      rw [hy, Bool.or_false]
      simp only [List.getLast?_singleton, List.head?_cons, Option.some.injEq, not_and] at hxy
      cases ha : (a == ' ') with
      | false => simp
      | true =>
        cases hb : (b == ' ') with
        | false => simp
        | true => exact absurd (by simpa using hb) (hxy (by simpa using ha))
  | a :: b :: t =>
    rw [show hasDoubledSpace (a :: b :: t) =
      ((a == ' ' && b == ' ') || hasDoubledSpace (b :: t)) from rfl] at hx
    obtain ⟨hx1, hx2⟩ := Bool.or_eq_false_iff.mp hx
    have hlast : (a :: b :: t).getLast? = (b :: t).getLast? := List.getLast?_cons_cons ..
    show ((a == ' ' && b == ' ') || hasDoubledSpace ((b :: t) ++ y)) = false
    rw [hx1, hasDoubledSpace_append hx2 hy (by rw [← hlast]; exact hxy), Bool.or_false]

theorem joinWords_nil : joinWords [] = [] := rfl

theorem joinWords_cons_cons (w v : Str) (ws : List Str) :
    joinWords (w :: v :: ws) = w ++ ' ' :: joinWords (v :: ws) := rfl

theorem joinWords_ne_nil {ws : List Str} (hne : ws ≠ [])
    (hw : ∀ w ∈ ws, w ≠ []) : joinWords ws ≠ [] := by
  match ws with
  | [w] => exact hw w (by simp)
  | w :: v :: ws =>
    rw [joinWords_cons_cons]
    simp

/-- Joining space-clean non-empty pieces with single spaces stays
space-clean. -/
theorem joinWords_spaceClean : ∀ {ws : List Str},
    (∀ w ∈ ws, w ≠ [] ∧ SpaceClean w) → SpaceClean (joinWords ws)
  | [], _ => ⟨rfl, by simp [joinWords_nil], by simp [joinWords_nil]⟩
  | [w], h => (h w (by simp)).2
  | w :: v :: ws, h => by
    obtain ⟨hwne, hwc⟩ := h w (by simp)
    have hrec : SpaceClean (joinWords (v :: ws)) :=
      joinWords_spaceClean (fun u hu => h u (List.mem_cons_of_mem w hu))
    have hjne : joinWords (v :: ws) ≠ [] :=
      joinWords_ne_nil (by simp) (fun u hu => (h u (List.mem_cons_of_mem w hu)).1)
    rw [joinWords_cons_cons]
    refine ⟨?_, ?_, ?_⟩
    · apply hasDoubledSpace_append hwc.noDouble
      · cases hj : joinWords (v :: ws) with
        | nil => rfl
        | cons b t =>
          show ((' ' == ' ' && b == ' ') || hasDoubledSpace (b :: t)) = false
          have hb : b ≠ ' ' := by
            have := hrec.headOk
            rw [hj] at this
            simpa using this
          have ht : hasDoubledSpace (b :: t) = false := by
            have := hrec.noDouble
            rwa [hj] at this
          simp [hb, ht]
      · rintro ⟨hl, -⟩
        exact hwc.lastOk hl
    · cases w with
      | nil => exact absurd rfl hwne
      | cons a t =>
        have := hwc.headOk
        simpa using this
    · obtain ⟨z, hz⟩ := Option.isSome_iff_exists.mp (List.getLast?_isSome.mpr hjne)
      have hzne : z ≠ ' ' := fun h' => hrec.lastOk (h' ▸ hz)
      rw [List.getLast?_append,
        show (' ' :: joinWords (v :: ws)) = [' '] ++ joinWords (v :: ws) from rfl,
        List.getLast?_append, hz]
      simp [Option.or, hzne]

theorem pyWordsGo_succ_cons (fuel : Nat) (c : Char) (t : Str) :
    pyWordsGo (fuel + 1) (c :: t) =
      if c.isWhitespace then pyWordsGo fuel t
      else (c :: t.takeWhile (fun x => !x.isWhitespace)) ::
        pyWordsGo fuel (t.dropWhile (fun x => !x.isWhitespace)) := rfl

/-- Every word produced by `str.split()` is non-empty and free of
whitespace. -/
theorem pyWordsGo_ok : ∀ (f : Nat) (s w : Str), w ∈ pyWordsGo f s →
    w ≠ [] ∧ ∀ c ∈ w, c.isWhitespace = false := by
  intro f
  induction f with
  | zero => intro s w hw; simp [pyWordsGo] at hw
  | succ f ih =>
    intro s w hw
    match s with
    | [] => simp [pyWordsGo] at hw
    | c :: t =>
      rw [pyWordsGo_succ_cons] at hw
      split at hw
      · exact ih t w hw
      · next hc =>
        rcases List.mem_cons.mp hw with rfl | hw'
        · refine ⟨by simp, ?_⟩
          intro x hx
          rcases List.mem_cons.mp hx with rfl | hx'
          · simpa using hc
          · simpa using List.mem_takeWhile_imp hx'
        · exact ih _ w hw'

/-- The whitespace collapse produces a space-clean text. -/
theorem cleanCue_spaceClean (t : Option Str) : SpaceClean (cleanCue t) := by
  apply joinWords_spaceClean
  intro w hw
  have h := pyWordsGo_ok _ _ w hw
  exact ⟨h.1, word_spaceClean h.2⟩

/-- Whenever `xml_to_text` succeeds, its output contains no two
consecutive spaces. -/
theorem xml_to_text_no_doubled {children : List XmlChild} {out : Str}
    (h : xml_to_text (some children) = some out) : hasDoubledSpace out = false := by
  have hout : out = joinWords (((children.filter (fun c => c.tag == "text".data)).map
      (fun c => cleanCue c.text)).filter (fun w => !w.isEmpty)) := by
    simpa [xml_to_text] using h.symm
  subst hout
  apply SpaceClean.noDouble
  apply joinWords_spaceClean
  intro w hw
  obtain ⟨hwmem, hwne⟩ := List.mem_filter.mp hw
  obtain ⟨c, -, hc⟩ := List.mem_map.mp hwmem
  refine ⟨by simpa using hwne, ?_⟩
  rw [← hc]
  exact cleanCue_spaceClean c.text

/-- The download-and-decode step never reports the missing-track
failure. -/
theorem downloadStep_ne_noCaptions (env : FetchEnv) (track : Caption) :
    downloadStep env track ≠ .error .noCaptions := by
  unfold downloadStep
  split
  · cases hx : xml_to_text (env.download track).2 with
    | none => simp
    | some t =>
      simp only
      split <;> simp
  · split <;> simp

theorem noY_inferSpeaker (title : Str) : noY (inferSpeaker title) = true := by
  unfold inferSpeaker
  repeat' split
  all_goals decide

theorem noY_entryHead {title date_str church_name : Str} (ht : noY title = true)
    (hd : noY date_str = true) (hc : noY church_name = true) :
    noY (entryHead title date_str church_name) = true := by
  have hs := noY_inferSpeaker title
  simp only [noY] at ht hd hc hs ⊢
  simp only [entryHead, List.all_append, ht, hd, hc, hs, Bool.and_true, Bool.true_and]
  decide

/-- The scan over a whole formatted entry finds the video id first
(formatter metadata is constrained not to contain the letter `y`, so it
cannot fabricate or swallow an occurrence of the URL literal). -/
theorem findIds_entry {video_id title date_str church : Str} (transcript : Str)
    (hT : noY title = true) (hD : noY date_str = true) (hC : noY church = true)
    (hlen : video_id.length = 11) (hall : video_id.all isVidChar = true) :
    findIds (format_sermon_entry video_id title date_str transcript church) =
      video_id :: findIds (entryTail transcript) := by
  unfold format_sermon_entry
  rw [show entryHead title date_str church ++ watchLit ++ video_id ++ entryTail transcript
      = entryHead title date_str church ++ (watchLit ++ video_id ++ entryTail transcript) by
    simp [List.append_assoc]]
  rw [findIds_append_noY (noY_entryHead hT hD hC)]
  exact findIds_watchLit_append hlen hall _

theorem mem_of_dedupByKey {vs : List Video} {v : Video} (h : v ∈ dedupByKey vs) :
    v ∈ vs := by
  obtain ⟨k, -, hk⟩ := List.mem_filterMap.mp h
  exact (List.mem_filter.mp (mem_of_getLast?_eq_some hk)).1

/-! ## Claims -/

/-- C1.  Idempotence of the pipeline: when the destination file already
contains an entry (its embedded `watch?v=` URL line) for every candidate
id returned by the listings, `process_channel` buffers zero entries,
performs no write, and leaves the destination file unchanged. -/
theorem c1_pipeline_idempotent (env : ChanEnv) (church_name : Str)
    (h : ∀ v ∈ listedVideos env, v.videoId ∈ get_existing_video_ids env.file) :
    process_channel env church_name = ⟨env.file, false, []⟩ := by
  have hempty : buildEntries (get_existing_video_ids env.file) env.fetch env.today church_name
      (dedupByKey (listedVideos env)) = [] := by
    apply List.filterMap_eq_nil_iff.mpr
    intro v hv
    simp [h v (mem_of_dedupByKey hv)]
  simp only [process_channel]
  split
  · rfl
  · simp [hempty]

set_option maxRecDepth 100000 in
theorem c1_pipeline_idempotent_witness :
    process_channel c1Env "Test Church".data = ⟨c1Env.file, false, []⟩ :=
  c1_pipeline_idempotent c1Env "Test Church".data (by decide)

set_option maxRecDepth 10000 in
/-- C3 (counterexample).  The Identity Store does not return every
11-character id that immediately follows a `youtube.com/watch?v=`
occurrence: an occurrence overlapping an earlier match is skipped by the
non-overlapping scan of `re.findall`. -/
theorem c3_counterexample :
    FollowsOccurrence overlapContent "BBBBBBBBBBB".data ∧
    "BBBBBBBBBBB".data ∉ get_existing_video_ids (some overlapContent) := by
  constructor
  · exact ⟨"youtube.com/watch?v=AAAA".data, [], by decide, by decide, by decide⟩
  · decide

set_option maxRecDepth 100000 in
/-- C3 (amended).  The Identity Store returns the empty set for a missing
file; every id it returns is an 11-character `[a-zA-Z0-9_-]` string
immediately following a `youtube.com/watch?v=` occurrence (duplicates
collapsed); and on a file whose occurrences do not overlap (such as one
of formatted entries interleaved with unrelated text) it returns exactly
the archived ids. -/
theorem c3_identity_store_amended :
    get_existing_video_ids none = ∅ ∧
    (∀ content x, x ∈ get_existing_video_ids (some content) →
      FollowsOccurrence content x) ∧
    get_existing_video_ids (some synthFile) =
      {"aaaaaaaaaaa".data, "bbbbbbbbbb_".data, "ccccccccc-C".data} := by
  refine ⟨rfl, ?_, by decide⟩
  intro content x hx
  exact findIds_sound (List.mem_toFinset.mp hx)

theorem c3_identity_store_amended_witness :
    FollowsOccurrence synthFile "aaaaaaaaaaa".data :=
  c3_identity_store_amended.2.1 synthFile "aaaaaaaaaaa".data
    (by set_option maxRecDepth 100000 in decide)

/-- C8.  Empty-batch no-op: whenever zero entries were buffered (no new
candidates, or every new candidate's fetch failed), `process_channel`
performs no write and the destination file is unchanged. -/
theorem c8_empty_batch_noop (env : ChanEnv) (church_name : Str)
    (h : buildEntries (get_existing_video_ids env.file) env.fetch env.today church_name
      (dedupByKey (listedVideos env)) = []) :
    (process_channel env church_name).wrote = false ∧
    (process_channel env church_name).file = env.file := by
  simp only [process_channel]
  split
  · exact ⟨rfl, rfl⟩
  · simp [h]

theorem c8_empty_batch_noop_witness :
    (process_channel c8Env "Test Church".data).wrote = false ∧
    (process_channel c8Env "Test Church".data).file = c8Env.file :=
  c8_empty_batch_noop c8Env "Test Church".data (by decide)

/-- C9.  Missing configuration: when neither `channels.json` nor
`config.json` exists, `load_config` returns the empty mapping and `main`
returns without processing any channel. -/
theorem c9_missing_config (env : RunEnv)
    (h1 : env.fileExists "channels.json".data = false)
    (h2 : env.fileExists "config.json".data = false) :
    load_config env = [] ∧ main env = [] := by
  have hl : load_config env = [] := by
    unfold load_config CONFIG_FILES
    simp [List.find?_cons, h1, h2]
  refine ⟨hl, ?_⟩
  unfold main
  rw [hl]
  rfl

theorem c9_missing_config_witness : load_config c9Env = [] ∧ main c9Env = [] :=
  c9_missing_config c9Env rfl rfl

/-- C10.  Round-trip precondition: an entry written by
`format_sermon_entry` is recognized by `get_existing_video_ids` exactly
when its id has 11 characters over `[a-zA-Z0-9_-]` (the metadata fields
are assumed free of the letter `y`, so they cannot themselves form or
disturb an occurrence of the URL literal). -/
theorem c10_roundtrip (video_id title date_str transcript church : Str)
    (hT : noY title = true) (hD : noY date_str = true) (hC : noY church = true) :
    video_id ∈ get_existing_video_ids
      (some (format_sermon_entry video_id title date_str transcript church)) ↔
    (video_id.length = 11 ∧ video_id.all isVidChar = true) := by
  constructor
  · intro h
    obtain ⟨A, B, -, hlen, hall⟩ := findIds_sound (List.mem_toFinset.mp h)
    exact ⟨hlen, hall⟩
  · rintro ⟨hlen, hall⟩
    rw [get_existing_video_ids, List.mem_toFinset, findIds_entry transcript hT hD hC hlen hall]
    exact List.mem_cons_self _ _

theorem c10_roundtrip_witness :
    "dQw4w9WgXcQ".data ∈ get_existing_video_ids (some (format_sermon_entry
      "dQw4w9WgXcQ".data "A Sermon - Evans".data "2024-01-01".data
      "some transcript".data "Test Church".data)) :=
  (c10_roundtrip "dQw4w9WgXcQ".data "A Sermon - Evans".data "2024-01-01".data
    "some transcript".data "Test Church".data (by decide) (by decide) (by decide)).mpr
    (by decide)

/-- C2.  Fallback correctness: the WEB client is always attempted first;
the ANDROID client is attempted exactly when the WEB attempt yields no
caption track; a track yielded by the ANDROID fallback is downloaded and
returned rather than failing with the missing-track error; when neither
client yields a track the fetch fails with the missing-track error. -/
theorem c2_fallback_correct (env : FetchEnv) :
    ((get_transcript_text env).2.head? = some "WEB".data) ∧
    (∀ c, clientTrack env "WEB".data = some c →
      get_transcript_text env = (downloadStep env c, ["WEB".data])) ∧
    ("ANDROID".data ∈ (get_transcript_text env).2 ↔ clientTrack env "WEB".data = none) ∧
    (∀ c, clientTrack env "WEB".data = none → clientTrack env "ANDROID".data = some c →
      (get_transcript_text env).1 = downloadStep env c ∧
      (get_transcript_text env).1 ≠ .error .noCaptions) ∧
    (clientTrack env "WEB".data = none → clientTrack env "ANDROID".data = none →
      (get_transcript_text env).1 = .error .noCaptions) := by
  unfold get_transcript_text
  cases hw : clientTrack env "WEB".data with
  | some c =>
    refine ⟨rfl, ?_, ?_, ?_, ?_⟩
    · intro c' hc'
      obtain rfl : c = c' := by simpa using hc'
      rfl
    · simp only
      constructor
      · intro hmem
        exact absurd hmem (by decide)
      · intro h
        exact absurd h (by simp)
    · intro c' h
      exact absurd h (by simp)
    · intro h
      exact absurd h (by simp)
  | none =>
    cases ha : clientTrack env "ANDROID".data with
    | some c =>
      refine ⟨rfl, ?_, ?_, ?_, ?_⟩
      · intro c' hc'
        exact absurd hc' (by simp)
      · exact ⟨fun _ => rfl, fun _ => List.mem_cons_of_mem _ (List.mem_cons_self _ _)⟩
      · intro c' _ hc'
        obtain rfl : c = c' := by simpa using hc'
        exact ⟨rfl, downloadStep_ne_noCaptions env c⟩
      · intro _ h
        exact absurd h (by simp)
    | none =>
      refine ⟨rfl, ?_, ?_, ?_, ?_⟩
      · intro c' hc'
        exact absurd hc' (by simp)
      · exact ⟨fun _ => rfl, fun _ => List.mem_cons_of_mem _ (List.mem_cons_self _ _)⟩
      · intro c' _ hc'
        exact absurd hc' (by simp)
      · intro _ _
        rfl

theorem c2_fallback_correct_witness :
    (get_transcript_text c2Env).1 = downloadStep c2Env ⟨"en".data⟩ ∧
    (get_transcript_text c2Env).1 ≠ Except.error FetchErr.noCaptions :=
  (c2_fallback_correct c2Env).2.2.2.1 ⟨"en".data⟩ rfl rfl

/-- C5 (counterexample).  A metadata-step exception is not surfaced as a
distinct `ClientResolutionError`: when both client resolutions raise, the
fetch fails with exactly the same missing-track failure as when both
resolutions succeed but expose no track. -/
theorem c5_counterexample :
    (get_transcript_text c5ThrowEnv).1 = .error .noCaptions ∧
    (get_transcript_text c5NoTrackEnv).1 = .error .noCaptions :=
  ⟨rfl, rfl⟩

/-- C5 (amended).  Every per-video failure of the fetcher is one of the
four typed kinds — missing track (which also covers a metadata step that
threw for both clients, since those exceptions are caught and only
logged), rate-limited on HTTP 429, upstream HTTP error on another
non-200 status, and empty transcript — and each kind arises exactly at
its stated trigger. -/
theorem c5_failure_taxonomy_amended (env : FetchEnv) :
    (∀ u v, env.resolve "WEB".data = .error u → env.resolve "ANDROID".data = .error v →
      (get_transcript_text env).1 = .error .noCaptions) ∧
    ((get_transcript_text env).1 = .error .noCaptions ∨
      ∃ track, (get_transcript_text env).1 = downloadStep env track) ∧
    (∀ track, (env.download track).1 = 429 →
      downloadStep env track = .error .rateLimited) ∧
    (∀ track, (env.download track).1 ≠ 200 → (env.download track).1 ≠ 429 →
      downloadStep env track = .error (.httpError (env.download track).1)) ∧
    (∀ track, (env.download track).1 = 200 →
      (xml_to_text (env.download track).2 = none ∨
        xml_to_text (env.download track).2 = some []) →
      downloadStep env track = .error .transcriptEmpty) ∧
    (∀ track text, (env.download track).1 = 200 →
      xml_to_text (env.download track).2 = some text → text ≠ [] →
      downloadStep env track = .ok text) := by
  refine ⟨?_, ?_, ?_, ?_, ?_, ?_⟩
  · intro u v hu hv
    have hw : clientTrack env "WEB".data = none := by
      simp [clientTrack, fetch_captions_with_client, hu, Except.map]
    have ha : clientTrack env "ANDROID".data = none := by
      simp [clientTrack, fetch_captions_with_client, hv, Except.map]
    unfold get_transcript_text
    rw [hw, ha]
  · unfold get_transcript_text
    cases clientTrack env "WEB".data with
    | some c => exact Or.inr ⟨c, rfl⟩
    | none =>
      cases clientTrack env "ANDROID".data with
      | some c => exact Or.inr ⟨c, rfl⟩
      | none => exact Or.inl rfl
  · intro track h
    unfold downloadStep
    rw [h]
    norm_num
  · intro track h200 h429
    unfold downloadStep
    rw [if_neg h200, if_neg h429]
  · intro track h200 hx
    unfold downloadStep
    rw [if_pos h200]
    rcases hx with hx | hx <;> rw [hx]
    rfl
  · intro track text h200 hx hne
    unfold downloadStep
    rw [if_pos h200, hx]
    simp [hne]

theorem c5_failure_taxonomy_amended_witness :
    (get_transcript_text c5ThrowEnv).1 = Except.error FetchErr.noCaptions :=
  (c5_failure_taxonomy_amended c5ThrowEnv).1 () () rfl rfl

/-- C7.  Caption-track language preference: a resolved metadata result is
searched for `en`, then `a.en`, then `en-US`, and only when none of those
codes is present for the first track whose code starts with `en`; at most
one track (necessarily one of the listed ones) is selected. -/
theorem c7_caption_preference (env : FetchEnv) (client : Str) (caps : List Caption) :
    (env.resolve client = .ok caps →
      fetch_captions_with_client env client = .ok (selectCaption caps)) ∧
    (hasCode caps "en".data = true → selectCaption caps = lookupCode caps "en".data) ∧
    (hasCode caps "en".data = false → hasCode caps "a.en".data = true →
      selectCaption caps = lookupCode caps "a.en".data) ∧
    (hasCode caps "en".data = false → hasCode caps "a.en".data = false →
      hasCode caps "en-US".data = true →
      selectCaption caps = lookupCode caps "en-US".data) ∧
    (hasCode caps "en".data = false → hasCode caps "a.en".data = false →
      hasCode caps "en-US".data = false →
      selectCaption caps = caps.find? (fun c => "en".data.isPrefixOf c.code)) ∧
    (∀ c, selectCaption caps = some c → c ∈ caps) := by
  refine ⟨?_, ?_, ?_, ?_, ?_, ?_⟩
  · intro h
    simp [fetch_captions_with_client, h, Except.map]
  · intro h1
    obtain ⟨c, hc⟩ := Option.isSome_iff_exists.mp h1
    simp only [selectCaption, h1, if_true]
    unfold lookupCode
    rw [show caps.find? (fun c => c.code == "en".data) = some c from hc]
  · intro h1 h2
    obtain ⟨c, hc⟩ := Option.isSome_iff_exists.mp h2
    simp only [selectCaption, h1, h2, if_true, Bool.false_eq_true, if_false]
    unfold lookupCode
    rw [show caps.find? (fun c => c.code == "a.en".data) = some c from hc]
  · intro h1 h2 h3
    obtain ⟨c, hc⟩ := Option.isSome_iff_exists.mp h3
    simp only [selectCaption, h1, h2, h3, if_true, Bool.false_eq_true, if_false]
    unfold lookupCode
    rw [show caps.find? (fun c => c.code == "en-US".data) = some c from hc]
  · intro h1 h2 h3
    simp only [selectCaption, h1, h2, h3, Bool.false_eq_true, if_false]
  · intro c hsel
    simp only [selectCaption] at hsel
    cases h1 : hasCode caps "en".data with
    | true =>
      obtain ⟨d, hd⟩ := Option.isSome_iff_exists.mp h1
      rw [h1] at hsel
      simp only [if_true] at hsel
      unfold lookupCode at hsel
      rw [hd] at hsel
      simp only [Option.some.injEq] at hsel
      exact hsel ▸ List.mem_of_find?_eq_some hd
    | false =>
      rw [h1] at hsel
      simp only [Bool.false_eq_true, if_false] at hsel
      cases h2 : hasCode caps "a.en".data with
      | true =>
        obtain ⟨d, hd⟩ := Option.isSome_iff_exists.mp h2
        rw [h2] at hsel
        simp only [if_true] at hsel
        unfold lookupCode at hsel
        rw [hd] at hsel
        simp only [Option.some.injEq] at hsel
        exact hsel ▸ List.mem_of_find?_eq_some hd
      | false =>
        rw [h2] at hsel
        simp only [Bool.false_eq_true, if_false] at hsel
        cases h3 : hasCode caps "en-US".data with
        | true =>
          obtain ⟨d, hd⟩ := Option.isSome_iff_exists.mp h3
          rw [h3] at hsel
          simp only [if_true] at hsel
          unfold lookupCode at hsel
          rw [hd] at hsel
          simp only [Option.some.injEq] at hsel
          exact hsel ▸ List.mem_of_find?_eq_some hd
        | false =>
          rw [h3] at hsel
          simp only [Bool.false_eq_true, if_false] at hsel
          exact List.mem_of_find?_eq_some hsel

theorem c7_caption_preference_witness :
    selectCaption c7Caps = lookupCode c7Caps "a.en".data ∧
    selectCaption c7Caps = some ⟨"a.en".data⟩ :=
  ⟨(c7_caption_preference c5ThrowEnv "WEB".data c7Caps).2.2.1 (by decide) (by decide),
   by decide⟩

set_option maxRecDepth 200000 in
/-- C6.  Partial-failure isolation: a candidate whose fetch raises any
fetcher failure contributes no entry and leaves the entries of the
surrounding candidates intact; every new candidate whose fetch succeeds
has its formatted entry appended; in the three-candidate world whose
second fetch fails, exactly the first and third entries are written (in
reverse discovery order). -/
theorem c6_failure_isolation :
    (∀ (existing : Finset Str) (fetch : Str → Except FetchErr Str)
      (today church : Str) (pre post : List Video) (v : Video) (e : FetchErr),
      fetch v.videoId = .error e →
      buildEntries existing fetch today church (pre ++ v :: post) =
        buildEntries existing fetch today church pre ++
          buildEntries existing fetch today church post) ∧
    (∀ (env : ChanEnv) (church : Str) (v : Video) (text : Str),
      v ∈ dedupByKey (listedVideos env) →
      v.videoId ∉ get_existing_video_ids env.file →
      env.fetch v.videoId = .ok text →
      format_sermon_entry v.videoId v.title env.today text church ∈
        (process_channel env church).appended) ∧
    (process_channel c6Env "Test Church".data).appended =
      [format_sermon_entry "ccccccccccc".data "Third - Guerra".data "2024-01-03".data
        "transcript words".data "Test Church".data,
       format_sermon_entry "aaaaaaaaaaa".data "First - Evans".data "2024-01-03".data
        "transcript words".data "Test Church".data] := by
  refine ⟨?_, ?_, by decide⟩
  · intro existing fetch today church pre post v e hfe
    unfold buildEntries
    simp [List.filterMap_append, List.filterMap_cons, hfe]
  · intro env church v text hv hnot hfv
    have hmem : format_sermon_entry v.videoId v.title env.today text church ∈
        buildEntries (get_existing_video_ids env.file) env.fetch env.today church
          (dedupByKey (listedVideos env)) :=
      List.mem_filterMap.mpr ⟨v, hv, by simp [hnot, hfv]⟩
    have h1 : (dedupByKey (listedVideos env)).isEmpty = false := by
      cases h : dedupByKey (listedVideos env) with
      | nil => rw [h] at hv; simp at hv
      | cons a l => rfl
    have h2 : (buildEntries (get_existing_video_ids env.file) env.fetch env.today church
        (dedupByKey (listedVideos env))).isEmpty = false := by
      cases h : buildEntries (get_existing_video_ids env.file) env.fetch env.today church
          (dedupByKey (listedVideos env)) with
      | nil => rw [h] at hmem; simp at hmem
      | cons a l => rfl
    simp only [process_channel, h1, h2, Bool.false_eq_true, if_false]
    exact List.mem_reverse.mpr hmem

set_option maxRecDepth 200000 in
theorem c6_failure_isolation_witness :
    format_sermon_entry "aaaaaaaaaaa".data "First - Evans".data "2024-01-03".data
      "transcript words".data "Test Church".data ∈
    (process_channel c6Env "Test Church".data).appended :=
  c6_failure_isolation.2.1 c6Env "Test Church".data
    ⟨"aaaaaaaaaaa".data, "First - Evans".data⟩ "transcript words".data
    (by decide) (by decide) rfl

set_option maxRecDepth 100000 in
/-- C4.  Decode correctness: `xml_to_text` decodes exactly the four
entities, collapses internal whitespace, and joins non-empty cues with
single spaces, so a successful result never contains doubled spaces; an
empty decode (including an unparseable payload) is surfaced by
`get_transcript_text` as the empty-transcript failure, a kind distinct
from the missing-track failure. -/
theorem c4_decode_correct :
    xml_to_text (some c4Children) = some c4Expected ∧
    (∀ (children : List XmlChild) (out : Str),
      xml_to_text (some children) = some out → hasDoubledSpace out = false) ∧
    decodeEntities "say &lt;this&gt; &copy; stays put".data =
      "say &lt;this&gt; &copy; stays put".data ∧
    (∀ (env : FetchEnv) (track : Caption),
      clientTrack env "WEB".data = some track →
      (env.download track).1 = 200 →
      (xml_to_text (env.download track).2 = none ∨
        xml_to_text (env.download track).2 = some []) →
      (get_transcript_text env).1 = .error .transcriptEmpty) ∧
    FetchErr.transcriptEmpty ≠ FetchErr.noCaptions := by
  refine ⟨by decide, ?_, by decide, ?_, by decide⟩
  · intro children out h
    exact xml_to_text_no_doubled h
  · intro env track hw h200 hx
    unfold get_transcript_text
    rw [hw]
    simp only
    unfold downloadStep
    rw [if_pos h200]
    rcases hx with hx | hx <;> rw [hx]
    rfl

theorem c4_decode_correct_witness : hasDoubledSpace c4Expected = false :=
  c4_decode_correct.2.1 c4Children c4Expected
    (by set_option maxRecDepth 100000 in decide)

end UpdateSermons
